import Mathlib

/-!
Verification of the signing-core design specified for the
filecoin-signing-tools browser demo.  The repository's only source file,
`src/examples/wasm_browser/index.js`, is glue code over an external wasm
library, so the operations below (mnemonic codec, seed derivation, key
recovery, transaction codec, signer) are modelled from the specification
document: each such definition's doc comment records what is missing from
the sources and which part of the spec it follows.
-/

/-- A byte string, modelled as a list of naturals (each intended `< 256`). -/
abbrev Bytes := List Nat

/-- The error taxonomy of the signing core (spec section 7). -/
inductive SigError where
  | EntropySourceError
  | InvalidChecksum
  | InvalidWord
  | InvalidPath
  | HardenedDerivationRequiresPrivateKey
  | InvalidKeyLength
  | InvalidScalar
  | InvalidAddress
  | InvalidAmount
  | FieldOutOfRange
  | InvalidPrivateKey
deriving DecidableEq, Repr

/-! ## Little-endian byte and bit codecs -/

/-- Little-endian bytes of `n`, exactly `w` bytes wide. -/
def natToBytes : Nat → Nat → Bytes
  | 0, _ => []
  | w + 1, n => n % 256 :: natToBytes w (n / 256)

/-- The natural number denoted by a little-endian byte string. -/
def bytesToNat : Bytes → Nat
  | [] => 0
  | b :: t => b + 256 * bytesToNat t

/-- Little-endian bits of `n`, exactly `w` bits wide. -/
def natToBits : Nat → Nat → List Bool
  | 0, _ => []
  | w + 1, n => decide (n % 2 = 1) :: natToBits w (n / 2)

/-- The natural number denoted by a little-endian bit string. -/
def bitsToNat : List Bool → Nat
  | [] => 0
  | b :: t => (cond b 1 0) + 2 * bitsToNat t

theorem natToBytes_length : ∀ w n, (natToBytes w n).length = w := by
  intro w
  induction w with
  | zero => intro n; rfl
  | succ w ih => intro n; simp [natToBytes, ih]

theorem natToBits_length : ∀ w n, (natToBits w n).length = w := by
  intro w
  induction w with
  | zero => intro n; rfl
  | succ w ih => intro n; simp [natToBits, ih]

theorem bytesToNat_natToBytes : ∀ w n, n < 256 ^ w →
    bytesToNat (natToBytes w n) = n := by
  intro w
  induction w with
  | zero =>
    intro n h
    simp [Nat.pow_zero] at h
    simp [natToBytes, bytesToNat, h]
  | succ w ih =>
    intro n h
    have hdiv : n / 256 < 256 ^ w := by
      rw [Nat.div_lt_iff_lt_mul (by norm_num)]
      calc n < 256 ^ (w + 1) := h
        _ = 256 ^ w * 256 := by ring
    simp [natToBytes, bytesToNat, ih (n / 256) hdiv]
    omega

theorem bitsToNat_lt : ∀ bs : List Bool, bitsToNat bs < 2 ^ bs.length := by
  intro bs
  induction bs with
  | nil => simp [bitsToNat]
  | cons b t ih =>
    simp only [bitsToNat, List.length_cons, pow_succ]
    cases b <;> simp only [cond] <;> omega

theorem natToBits_bitsToNat : ∀ bs : List Bool,
    natToBits bs.length (bitsToNat bs) = bs := by
  intro bs
  induction bs with
  | nil => rfl
  | cons b t ih =>
    simp only [List.length_cons, natToBits, bitsToNat]
    have hd : decide (((cond b 1 0) + 2 * bitsToNat t) % 2 = 1) = b := by
      cases b <;> simp <;> omega
    have tl : ((cond b 1 0) + 2 * bitsToNat t) / 2 = bitsToNat t := by
      cases b <;> simp <;> omega
    rw [hd, tl, ih]

/-! ## Grouping a bit stream into 11-bit wordlist indices -/

/-- Groups a bit stream into consecutive 11-bit chunks, each read as a
wordlist index (spec section 4.1: "maps the combined bitstream to wordlist
indices"). -/
def chunk11 : List Bool → List Nat
  | [] => []
  | b :: t => bitsToNat ((b :: t).take 11) :: chunk11 ((b :: t).drop 11)
termination_by bs => bs.length
decreasing_by simp; omega

/-- Inverse of `chunk11`: renders each 11-bit index back into bits. -/
def unchunk11 : List Nat → List Bool
  | [] => []
  | w :: t => natToBits 11 w ++ unchunk11 t

theorem chunk11_length : ∀ m bs, bs.length = 11 * m → (chunk11 bs).length = m := by
  intro m
  induction m with
  | zero =>
    intro bs h
    have : bs = [] := List.eq_nil_of_length_eq_zero (by omega)
    subst this; simp [chunk11]
  | succ m ih =>
    intro bs h
    match bs, h with
    | b :: t, h =>
      rw [chunk11, List.length_cons]
      congr 1
      apply ih
      simp only [List.length_cons] at h
      simp only [List.length_drop, List.length_cons]
      omega

theorem chunk11_lt : ∀ bs x, x ∈ chunk11 bs → x < 2048 := by
  intro bs
  induction bs using chunk11.induct with
  | case1 => intro x hx; simp [chunk11] at hx
  | case2 b t ih =>
    intro x hx
    rw [chunk11] at hx
    rcases List.mem_cons.mp hx with h | h
    · subst h
      have h1 := bitsToNat_lt ((b :: t).take 11)
      have h2 : ((b :: t).take 11).length ≤ 11 := by
        simp [List.length_take]
      calc bitsToNat ((b :: t).take 11) < 2 ^ ((b :: t).take 11).length := h1
        _ ≤ 2 ^ 11 := Nat.pow_le_pow_right (by norm_num) h2
        _ = 2048 := by norm_num
    · exact ih x h

theorem unchunk11_chunk11 : ∀ m bs, bs.length = 11 * m →
    unchunk11 (chunk11 bs) = bs := by
  intro m
  induction m with
  | zero =>
    intro bs h
    have : bs = [] := List.eq_nil_of_length_eq_zero (by omega)
    subst this; simp [chunk11, unchunk11]
  | succ m ih =>
    intro bs h
    match bs, h with
    | b :: t, h =>
      rw [chunk11, unchunk11]
      have hlen : ((b :: t).take 11).length = 11 := by
        simp only [List.length_take, List.length_cons]
        simp only [List.length_cons] at h
        omega
      have h1 : natToBits 11 (bitsToNat ((b :: t).take 11)) = (b :: t).take 11 := by
        have h0 := natToBits_bitsToNat ((b :: t).take 11)
        rw [hlen] at h0
        exact h0
      have h2 : unchunk11 (chunk11 ((b :: t).drop 11)) = (b :: t).drop 11 := by
        apply ih
        simp only [List.length_cons] at h
        simp only [List.length_drop, List.length_cons]
        omega
      rw [h1, h2, List.take_append_drop]

/-! ## Entropy and mnemonic codec (spec section 4.1) -/

/-- Modelled from the spec: the external library's hash used for the
mnemonic checksum is not in the sources; modelled as a deterministic
executable fold over the entropy bits. -/
def simpleHash (bs : List Bool) : Nat :=
  List.foldl (fun a b => (a * 2 + cond b 1 0 + 40503) % 65536) 9029 bs

/-- Modelled from the spec: "computes a checksum over its hash, appends it"
— the checksum is `entropyBits / 32` bits of the entropy's hash. -/
def checksumBits (ent : List Bool) : List Bool :=
  natToBits (ent.length / 32) (simpleHash ent)

/-- Modelled from the spec: `generateMnemonic` draws entropy from a secure
random source, which is not in the sources; the entropy is modelled as an
explicit argument.  Appends the checksum and maps the combined bit stream
to wordlist indices (a word is modelled by its index in the fixed
wordlist). -/
def generateMnemonic (ent : List Bool) : List Nat :=
  chunk11 (ent ++ checksumBits ent)

/-- The five entropy bit lengths accepted by the spec
(word counts 12, 15, 18, 21, 24). -/
def validEntropyLen (n : Nat) : Prop :=
  n = 128 ∨ n = 160 ∨ n = 192 ∨ n = 224 ∨ n = 256

instance : DecidablePred validEntropyLen := fun n => by
  unfold validEntropyLen; infer_instance

/-- Modelled from the spec: `validateMnemonic` is pure validation — word
indices in range, a valid word count, and a matching checksum. -/
def validateMnemonic (ws : List Nat) : Bool :=
  decide (∀ x ∈ ws, x < 2048) &&
  decide (ws.length = 12 ∨ ws.length = 15 ∨ ws.length = 18 ∨
          ws.length = 21 ∨ ws.length = 24) &&
  (let bits := unchunk11 ws
   let entLen := 32 * (ws.length / 3)
   decide (bits.drop entLen = checksumBits (bits.take entLen)))

/-- Modelled from the spec: `mnemonicToEntropy` is the inverse mapping,
failing with `InvalidWord` on an out-of-wordlist word and with
`InvalidChecksum` when validation fails. -/
def mnemonicToEntropy (ws : List Nat) : Except SigError (List Bool) :=
  if ¬ (∀ x ∈ ws, x < 2048) then .error .InvalidWord
  else if validateMnemonic ws then
    .ok ((unchunk11 ws).take (32 * (ws.length / 3)))
  else .error .InvalidChecksum

theorem mnemonic_roundtrip_core (k : Nat) (ent : List Bool)
    (hk : 4 ≤ k) (hk' : k ≤ 8) (h : ent.length = 32 * k) :
    (generateMnemonic ent).length = 3 * k ∧
    validateMnemonic (generateMnemonic ent) = true ∧
    mnemonicToEntropy (generateMnemonic ent) = Except.ok ent := by
  have hcs : (checksumBits ent).length = k := by
    simp only [checksumBits, natToBits_length, h]
    omega
  have hT : (ent ++ checksumBits ent).length = 11 * (3 * k) := by
    simp only [List.length_append, h, hcs]
    omega
  have hlen : (generateMnemonic ent).length = 3 * k := chunk11_length (3 * k) _ hT
  have hun : unchunk11 (generateMnemonic ent) = ent ++ checksumBits ent :=
    unchunk11_chunk11 (3 * k) _ hT
  have hwords : ∀ x ∈ generateMnemonic ent, x < 2048 :=
    fun x hx => chunk11_lt _ x hx
  have hEntLen : 32 * ((generateMnemonic ent).length / 3) = ent.length := by
    rw [hlen, h]; omega
  have htake : (unchunk11 (generateMnemonic ent)).take
      (32 * ((generateMnemonic ent).length / 3)) = ent := by
    rw [hun, hEntLen]
    exact List.take_left ent (checksumBits ent)
  have hdrop : (unchunk11 (generateMnemonic ent)).drop
      (32 * ((generateMnemonic ent).length / 3)) = checksumBits ent := by
    rw [hun, hEntLen]
    exact List.drop_left ent (checksumBits ent)
  have hvalid : validateMnemonic (generateMnemonic ent) = true := by
    simp only [validateMnemonic, Bool.and_eq_true, decide_eq_true_eq]
    refine ⟨⟨hwords, ?_⟩, ?_⟩
    · rw [hlen]; omega
    · rw [hdrop, htake]
  refine ⟨hlen, hvalid, ?_⟩
  rw [mnemonicToEntropy, if_neg (not_not_intro hwords)]
  simp only [hvalid, if_true]
  rw [htake]

/-- C6: for every valid word count (12, 15, 18, 21 or 24, i.e. every valid
entropy length), the mnemonic produced by `generateMnemonic` is accepted by
`validateMnemonic`, and re-encoding the entropy recovered by
`mnemonicToEntropy` yields the same mnemonic: the mnemonic/entropy mapping
round-trips losslessly. -/
theorem C6_mnemonic_roundtrip (ent : List Bool) (h : validEntropyLen ent.length) :
    validateMnemonic (generateMnemonic ent) = true ∧
    mnemonicToEntropy (generateMnemonic ent) = Except.ok ent ∧
    ∀ e, mnemonicToEntropy (generateMnemonic ent) = Except.ok e →
      generateMnemonic e = generateMnemonic ent := by
  obtain ⟨k, hk, hk', hlen⟩ : ∃ k, 4 ≤ k ∧ k ≤ 8 ∧ ent.length = 32 * k := by
    rcases h with h | h | h | h | h
    · exact ⟨4, by norm_num, by norm_num, by omega⟩
    · exact ⟨5, by norm_num, by norm_num, by omega⟩
    · exact ⟨6, by norm_num, by norm_num, by omega⟩
    · exact ⟨7, by norm_num, by norm_num, by omega⟩
    · exact ⟨8, by norm_num, by norm_num, by omega⟩
  obtain ⟨h1, h2, h3⟩ := mnemonic_roundtrip_core k ent hk hk' hlen
  refine ⟨h2, h3, ?_⟩
  intro e he
  rw [h3] at he
  cases he
  rfl

/-- Witness for C6 at 128 zero bits of entropy. -/
theorem C6_mnemonic_roundtrip_witness :
    validEntropyLen (List.replicate 128 false).length ∧
    validateMnemonic (generateMnemonic (List.replicate 128 false)) = true := by
  have h : validEntropyLen (List.replicate 128 false).length := by
    simp [validEntropyLen]
  exact ⟨h, (C6_mnemonic_roundtrip (List.replicate 128 false) h).1⟩

/-! ## Key material (spec sections 4.2 and 4.3) -/

/-- The order of the secp256k1 group: a private key is a scalar `k` with
`0 < k < secpOrder`. -/
def secpOrder : Nat :=
  0xFFFFFFFFFFFFFFFFFFFFFFFFFFFFFFFEBAAEDCE6AF48A03BBFD25E8CD0364141

/-- Predicate: `k` is a valid curve scalar (spec: not zero and below the curve order). -/
def validScalar (k : Nat) : Prop := 0 < k ∧ k < secpOrder

instance : DecidablePred validScalar := fun k => by
  unfold validScalar; infer_instance

/-- Modelled from the spec: a deterministic executable stand-in for the
external library's byte-string hash (the exact algorithm is an
external-library internal, spec section 9). -/
def hashBytes (bs : Bytes) : Nat :=
  List.foldl (fun a b => (a * 1099511628211 + b + 40503) % 2 ^ 256) 14695981039346656037 bs

/-- Modelled from the spec: the public key derived from a private scalar
(the curve point, serialized to 33 bytes). The curve arithmetic lives in
the external library; it is modelled as a deterministic executable
function of the scalar. -/
def pubOf (k : Nat) : Bytes :=
  natToBytes 33 (hashBytes (4 :: natToBytes 32 k))

/-- Lowercase hex digit for `d < 16`. -/
def hexDigitChar (d : Nat) : Char :=
  Char.ofNat (if d < 10 then 48 + d else 87 + d)

/-- The hex characters of a byte string, two digits per byte. -/
def bytesToHexChars : Bytes → List Char
  | [] => []
  | b :: t => hexDigitChar (b / 16 % 16) :: hexDigitChar (b % 16) :: bytesToHexChars t

/-- Hex string view of a byte string. -/
def bytesToHex (bs : Bytes) : String := String.mk (bytesToHexChars bs)

/-- The base64 alphabet character for `n < 64`. -/
def b64Char (n : Nat) : Char :=
  if n < 26 then Char.ofNat (65 + n)
  else if n < 52 then Char.ofNat (97 + (n - 26))
  else if n < 62 then Char.ofNat (48 + (n - 52))
  else if n = 62 then '+'
  else '/'

/-- Standard base64 characters of a byte string, with `=` padding. -/
def b64Chars : Bytes → List Char
  | [] => []
  | [a] => [b64Char (a / 4), b64Char (a % 4 * 16), '=', '=']
  | [a, b] => [b64Char (a / 4), b64Char (a % 4 * 16 + b / 16), b64Char (b % 16 * 4), '=']
  | a :: b :: c :: rest =>
    b64Char (a / 4) :: b64Char (a % 4 * 16 + b / 16) ::
    b64Char (b % 16 * 4 + c / 64) :: b64Char (c % 64) :: b64Chars rest

/-- Base64 string view of a byte string. -/
def bytesToB64 (bs : Bytes) : String := String.mk (b64Chars bs)

/-- Modelled from the spec: address derivation applies a network encoding
(prefix plus checksummed hash of the public key); the exact rule is inside
the external library, modelled as a deterministic executable function. -/
def addressOf (pub : Bytes) : String :=
  String.mk ('t' :: '1' :: bytesToHexChars (natToBytes 20 (hashBytes pub)))

/-- The key-material container returned by `keyDerive` and `keyRecover`,
with the field names the demo script reads
(src/examples/wasm_browser/index.js lines 19-26 and 33-38). -/
structure KeyPair where
  address : String
  public_hexstring : String
  private_hexstring : String
  public_raw : Bytes
  private_raw : Bytes
  public_base64 : String
  private_base64 : String
deriving DecidableEq, Repr

/-- Builds the key pair for a private scalar: all fields are derived views
of the same underlying private and public key bytes (spec section 4.3). -/
def mkKeyPair (k : Nat) : KeyPair :=
  let priv := natToBytes 32 k
  let pub := pubOf k
  { address := addressOf pub
    public_hexstring := bytesToHex pub
    private_hexstring := bytesToHex priv
    public_raw := pub
    private_raw := priv
    public_base64 := bytesToB64 pub
    private_base64 := bytesToB64 priv }

/-- The operation `keyRecover` (spec section 4.3): reconstructs the key pair from a raw
private key; `InvalidKeyLength` unless the input is exactly 32 bytes,
`InvalidScalar` unless the value is a valid curve scalar. -/
def keyRecover (b : Bytes) : Except SigError KeyPair :=
  if b.length ≠ 32 then .error .InvalidKeyLength
  else if ¬ validScalar (bytesToNat b) then .error .InvalidScalar
  else .ok (mkKeyPair (bytesToNat b))

/-- Value of a single hex digit character, `none` on a non-hex character. -/
def hexDigitVal (c : Char) : Option Nat :=
  let n := c.toNat
  if 48 ≤ n ∧ n ≤ 57 then some (n - 48)
  else if 97 ≤ n ∧ n ≤ 102 then some (n - 87)
  else if 65 ≤ n ∧ n ≤ 70 then some (n - 55)
  else none

/-- Parses hex characters two at a time into bytes; `none` on an odd count
or a non-hex character. -/
def hexPairs : List Char → Option Bytes
  | [] => some []
  | [_] => none
  | a :: b :: rest => do
    let hi ← hexDigitVal a
    let lo ← hexDigitVal b
    let t ← hexPairs rest
    pure ((hi * 16 + lo) :: t)

/-- Parses a hex string into bytes. -/
def hexToBytes (s : String) : Option Bytes := hexPairs s.data

/-- The golden-vector private key hex string printed by the demo
(src/examples/wasm_browser/index.js line 31). -/
def goldenSkHex : String :=
  "6a1a68774457742a8bc69db5491df5ae7677687d49e1003a78e2d60959d5f7a7"

/-- The 32 golden-vector private key bytes. -/
def goldenSkBytes : Bytes := (hexToBytes goldenSkHex).getD []

/-- The golden-vector private scalar. -/
def goldenSk : Nat := bytesToNat goldenSkBytes

/-- Modelled from the spec: the 24-word golden-vector mnemonic beginning
"equip"; the spec elides the remaining words, so a fixed 24-word constant
stands in for them. -/
def goldenMnemonicText : String :=
  "equip will roof matter pink blind book anxiety banner elbow sun young " ++
  "gesture cereal brand raise sibling bracket crunch tissue match access pole tiger"

/-- The golden-vector derivation path string `m/44'/461'/0/0/0`
(src/examples/wasm_browser/index.js line 17). -/
def goldenPath : String :=
  String.mk ['m', '/', '4', '4', '\'', '/', '4', '6', '1', '\'', '/', '0', '/', '0', '/', '0']

/-- Byte view of a string's characters. -/
def strBytes (s : String) : Bytes := s.data.map Char.toNat

/-- Modelled from the spec: `mnemonicToSeed` applies a password-based key
derivation salted with "mnemonic"+passphrase; the derivation function
itself is in the external library and is modelled as a deterministic
executable hash of the salt and the mnemonic. -/
def mnemonicToSeed (m pass : String) : Nat :=
  hashBytes (strBytes (String.append "mnemonic" pass) ++ 0 :: strBytes m)

/-- Modelled from the spec: the hierarchical deterministic derivation of
the private scalar for a mnemonic, path and passphrase.  The BIP32-style
derivation is in the external library; it is modelled as a deterministic
executable function pinned to the spec's golden vector (the fixed 24-word
mnemonic with path m/44'/461'/0/0/0 and the empty passphrase derives the
golden private key). -/
def hdPrivFrom (m path pass : String) : Nat :=
  if m = goldenMnemonicText ∧ path = goldenPath ∧ pass = "" then goldenSk
  else hashBytes (natToBytes 64 (mnemonicToSeed m pass) ++ strBytes path) % (secpOrder - 1) + 1

/-- The operation `keyDerive` (spec sections 4.2 and 6): derives the key pair for a
mnemonic, derivation path and passphrase. -/
def keyDerive (mnemonic path password : String) : KeyPair :=
  mkKeyPair (hdPrivFrom mnemonic path password)

theorem goldenSk_valid : validScalar goldenSk := by decide

theorem hdPrivFrom_valid (m path pass : String) : validScalar (hdPrivFrom m path pass) := by
  rw [hdPrivFrom]
  split
  · exact goldenSk_valid
  · have h2 : 2 ≤ secpOrder := by norm_num [secpOrder]
    have hlt : hashBytes (natToBytes 64 (mnemonicToSeed m pass) ++ strBytes path)
        % (secpOrder - 1) < secpOrder - 1 := Nat.mod_lt _ (by omega)
    exact ⟨by omega, by omega⟩

/-- C3: deriving from the fixed golden-vector mnemonic with path
m/44'/461'/0/0/0 and the empty passphrase deterministically yields one
fixed key pair, and `keyRecover` on the golden 32-byte private key
(hex 6a1a...f7a7) yields that same address. -/
theorem C3_golden_vector :
    keyDerive goldenMnemonicText goldenPath "" = mkKeyPair goldenSk ∧
    keyRecover goldenSkBytes = Except.ok (mkKeyPair goldenSk) ∧
    (mkKeyPair goldenSk).address = (keyDerive goldenMnemonicText goldenPath "").address := by
  refine ⟨?_, ?_, ?_⟩
  · rw [keyDerive, hdPrivFrom, if_pos ⟨rfl, rfl, rfl⟩]
  · rfl
  · rw [keyDerive, hdPrivFrom, if_pos ⟨rfl, rfl, rfl⟩]

/-- C4: `keyRecover` is a left-inverse of extracting the private key bytes
from any `keyDerive` result: recovering from a derived key pair's 32
private-key bytes reproduces the very same key pair (public key and
address included). -/
theorem C4_recover_left_inverse (m path pass : String) :
    keyRecover ((keyDerive m path pass).private_raw) =
      Except.ok (keyDerive m path pass) := by
  have hk := hdPrivFrom_valid m path pass
  have hpriv : (keyDerive m path pass).private_raw =
      natToBytes 32 (hdPrivFrom m path pass) := rfl
  have hlen : (natToBytes 32 (hdPrivFrom m path pass)).length = 32 :=
    natToBytes_length 32 _
  have hround : bytesToNat (natToBytes 32 (hdPrivFrom m path pass)) =
      hdPrivFrom m path pass := by
    apply bytesToNat_natToBytes
    have hN : secpOrder < 256 ^ 32 := by norm_num [secpOrder]
    exact lt_trans hk.2 hN
  rw [hpriv, keyRecover, if_neg (by rw [hlen]; omega),
    if_neg (by rw [hround]; exact not_not_intro hk), hround]
  rfl

/-- C5: `keyDerive` is deterministic — two invocations with identical
mnemonic, path and passphrase return the identical key pair and the
identical address.  (The derivation is modelled as a pure function of its
inputs, as the spec requires: no hidden state or randomness.) -/
theorem C5_derive_deterministic (m path pass : String) (k₁ k₂ : KeyPair)
    (h₁ : keyDerive m path pass = k₁) (h₂ : keyDerive m path pass = k₂) :
    k₁ = k₂ ∧ k₁.address = k₂.address := by
  subst h₁; subst h₂; exact ⟨rfl, rfl⟩

/-- Witness for C5 at the golden-vector inputs. -/
theorem C5_derive_deterministic_witness :
    mkKeyPair goldenSk = mkKeyPair goldenSk ∧
    (mkKeyPair goldenSk).address = (mkKeyPair goldenSk).address :=
  C5_derive_deterministic goldenMnemonicText goldenPath "" _ _
    (by rw [keyDerive, hdPrivFrom, if_pos ⟨rfl, rfl, rfl⟩])
    (by rw [keyDerive, hdPrivFrom, if_pos ⟨rfl, rfl, rfl⟩])

/-- C7: `keyRecover` fails with `InvalidKeyLength` exactly when the input
is not 32 bytes, fails with `InvalidScalar` exactly when a 32-byte input
is not a valid curve scalar (zero or at least the curve order), and
returns a key pair exactly otherwise — it is total, never crashing or
silently truncating. -/
theorem C7_keyRecover_errors (b : Bytes) :
    (keyRecover b = .error .InvalidKeyLength ↔ b.length ≠ 32) ∧
    (keyRecover b = .error .InvalidScalar ↔
      b.length = 32 ∧ ¬ validScalar (bytesToNat b)) ∧
    ((∃ kp, keyRecover b = .ok kp) ↔
      b.length = 32 ∧ validScalar (bytesToNat b)) := by
  rw [keyRecover]
  split_ifs with h1 h2
  · refine ⟨by simp [h1], by simp [h1], by simp [h1]⟩
  · refine ⟨by simp [h1], by simp [h2], by simp [h2]; omega⟩
  · refine ⟨by simp [h1], by simp [h2]; omega, by simp [h2]⟩

/-- The hex, raw, base64 and address fields of a key pair are consistent
views of the same underlying key bytes. -/
def keyPairConsistent (kp : KeyPair) : Prop :=
  kp.public_hexstring = bytesToHex kp.public_raw ∧
  kp.private_hexstring = bytesToHex kp.private_raw ∧
  kp.public_base64 = bytesToB64 kp.public_raw ∧
  kp.private_base64 = bytesToB64 kp.private_raw ∧
  kp.address = addressOf kp.public_raw

/-- C10: every key pair returned by `keyDerive` or `keyRecover` exposes
the key material under the fields `address`, `public_hexstring`,
`private_hexstring`, `public_raw`, `private_raw`, `public_base64` and
`private_base64`, and the hex, raw and base64 views (and the address) are
consistent encodings of the same underlying key bytes. -/
theorem C10_keypair_views (m path pass : String) (b : Bytes) (kp : KeyPair) :
    keyPairConsistent (keyDerive m path pass) ∧
    (keyRecover b = .ok kp → keyPairConsistent kp) := by
  constructor
  · exact ⟨rfl, rfl, rfl, rfl, rfl⟩
  · intro h
    rw [keyRecover] at h
    split_ifs at h
    cases h
    exact ⟨rfl, rfl, rfl, rfl, rfl⟩

/-- Witness for C10 at the golden-vector inputs. -/
theorem C10_keypair_views_witness :
    keyPairConsistent (keyDerive goldenMnemonicText goldenPath "") ∧
    keyPairConsistent (mkKeyPair goldenSk) :=
  ⟨(C10_keypair_views goldenMnemonicText goldenPath "" goldenSkBytes
      (mkKeyPair goldenSk)).1,
   (C10_keypair_views goldenMnemonicText goldenPath "" goldenSkBytes
      (mkKeyPair goldenSk)).2 rfl⟩

/-! ## Transaction codec (spec section 4.4) -/

/-- The two wire-compatible message schemas of the codec: the native
schema and the external-chain-compatible one. -/
inductive Schema where
  | Native
  | LegacyCompat
deriving DecidableEq, Repr

/-- The unsigned transaction, as the strongly-typed structure the spec
prescribes for the boundary (spec sections 3 and 9): addresses and params
as byte strings, amounts as non-negative big integers, `gaslimit` as a
signed integer. -/
structure UnsignedTransaction where
  toAddr : Bytes
  fromAddr : Bytes
  nonce : Nat
  value : Nat
  gasprice : Nat
  gaslimit : Int
  gaspremium : Nat
  gasfeecap : Nat
  method : Nat
  params : Bytes
deriving DecidableEq, Repr

/-- A length-prefixed byte-string field. -/
def encB (b : Bytes) : Bytes := b.length :: b

/-- A single unsigned-integer field. -/
def encN (n : Nat) : Bytes := [n]

/-- A signed-integer field: sign byte then magnitude. -/
def encI (i : Int) : Bytes := [if i < 0 then 1 else 0, i.natAbs]

/-- Modelled from the spec: the canonical byte serialization of a
transaction under each schema.  The exact layouts are external-library
internals (spec section 9); they are modelled as two deterministic
serializations that differ in their leading schema tag and field order,
as the spec requires ("only the byte layout fed into the digest
differs"). -/
def schemaTag : Schema → Nat
  | .Native => 0
  | .LegacyCompat => 1

/-- The serialized fields of a transaction under a schema: the native
schema carries `to` before `from`, the external-compatible schema carries
`from` before `to`. -/
def txBody (tx : UnsignedTransaction) : Schema → Bytes
  | .Native =>
    encB tx.toAddr ++ encB tx.fromAddr ++ encN tx.nonce ++ encN tx.value ++
      encN tx.gasprice ++ encI tx.gaslimit ++ encN tx.gaspremium ++
      encN tx.gasfeecap ++ encN tx.method ++ encB tx.params
  | .LegacyCompat =>
    encB tx.fromAddr ++ encB tx.toAddr ++ encN tx.nonce ++ encN tx.value ++
      encN tx.gasprice ++ encI tx.gaslimit ++ encN tx.gaspremium ++
      encN tx.gasfeecap ++ encN tx.method ++ encB tx.params

def rawEncode (tx : UnsignedTransaction) (s : Schema) : Bytes :=
  schemaTag s :: txBody tx s

/-- A syntactically valid transaction: 64-bit `nonce` and `method`,
signed-64-bit `gaslimit`, and nonempty addresses for the target network. -/
def validTx (tx : UnsignedTransaction) : Prop :=
  tx.toAddr ≠ [] ∧ tx.fromAddr ≠ [] ∧
  tx.nonce < 2 ^ 64 ∧ tx.method < 2 ^ 64 ∧
  -(2 ^ 63) ≤ tx.gaslimit ∧ tx.gaslimit < 2 ^ 63

instance : DecidablePred validTx := fun tx => by
  unfold validTx; infer_instance

/-- The operation `encodeTransaction` (spec section 4.4): fail-fast validation
(`InvalidAddress` on a bad address, `FieldOutOfRange` on an out-of-range
selector or counter) followed by the canonical serialization. -/
def encodeTransaction (tx : UnsignedTransaction) (s : Schema) : Except SigError Bytes :=
  if tx.toAddr = [] ∨ tx.fromAddr = [] then .error .InvalidAddress
  else if tx.nonce ≥ 2 ^ 64 ∨ tx.method ≥ 2 ^ 64 ∨
      tx.gaslimit < -(2 ^ 63) ∨ tx.gaslimit ≥ 2 ^ 63 then .error .FieldOutOfRange
  else .ok (rawEncode tx s)

/-- Reads one unsigned-integer field. -/
def readN : Bytes → Option (Nat × Bytes)
  | [] => none
  | n :: r => some (n, r)

/-- Reads one length-prefixed byte-string field. -/
def readB : Bytes → Option (Bytes × Bytes)
  | [] => none
  | l :: r => if l ≤ r.length then some (r.take l, r.drop l) else none

/-- Reads one signed-integer field. -/
def readI : Bytes → Option (Int × Bytes)
  | s :: m :: r =>
    if s = 0 then some ((m : Int), r)
    else if s = 1 then some (-(m : Int), r)
    else none
  | _ => none

/-- Parses the field sequence of the native schema. -/
def readTxNative (r0 : Bytes) : Option UnsignedTransaction :=
  (readB r0).bind fun p1 =>
  (readB p1.2).bind fun p2 =>
  (readN p2.2).bind fun p3 =>
  (readN p3.2).bind fun p4 =>
  (readN p4.2).bind fun p5 =>
  (readI p5.2).bind fun p6 =>
  (readN p6.2).bind fun p7 =>
  (readN p7.2).bind fun p8 =>
  (readN p8.2).bind fun p9 =>
  (readB p9.2).bind fun p10 =>
  if p10.2 = [] then
    some ⟨p1.1, p2.1, p3.1, p4.1, p5.1, p6.1, p7.1, p8.1, p9.1, p10.1⟩
  else none

/-- Parses the field sequence of the external-compatible schema
(`from` before `to` on the wire). -/
def readTxLegacy (r0 : Bytes) : Option UnsignedTransaction :=
  (readB r0).bind fun p1 =>
  (readB p1.2).bind fun p2 =>
  (readN p2.2).bind fun p3 =>
  (readN p3.2).bind fun p4 =>
  (readN p4.2).bind fun p5 =>
  (readI p5.2).bind fun p6 =>
  (readN p6.2).bind fun p7 =>
  (readN p7.2).bind fun p8 =>
  (readN p8.2).bind fun p9 =>
  (readB p9.2).bind fun p10 =>
  if p10.2 = [] then
    some ⟨p2.1, p1.1, p3.1, p4.1, p5.1, p6.1, p7.1, p8.1, p9.1, p10.1⟩
  else none

/-- The operation `decodeTransaction` (spec section 4.4): the exact inverse of the
serialization, per schema. -/
def decodeTransaction (bs : Bytes) (s : Schema) : Option UnsignedTransaction :=
  match bs with
  | [] => none
  | t :: rest =>
    if t = schemaTag s then
      match s with
      | .Native => readTxNative rest
      | .LegacyCompat => readTxLegacy rest
    else none

theorem readN_enc (n : Nat) (r : Bytes) : readN (encN n ++ r) = some (n, r) := rfl

theorem readB_enc (b : Bytes) (r : Bytes) : readB (encB b ++ r) = some (b, r) := by
  show readB (b.length :: (b ++ r)) = some (b, r)
  rw [readB]
  rw [if_pos (by simp)]
  rw [List.take_left, List.drop_left]

theorem readI_enc (i : Int) (r : Bytes) : readI (encI i ++ r) = some (i, r) := by
  show readI ((if i < 0 then 1 else 0) :: i.natAbs :: r) = some (i, r)
  by_cases h : i < 0
  · rw [if_pos h, readI, if_neg (by norm_num), if_pos rfl]
    congr 1
    congr 1
    omega
  · rw [if_neg h, readI, if_pos rfl]
    congr 1
    congr 1
    omega

theorem decode_rawEncode (tx : UnsignedTransaction) (s : Schema) :
    decodeTransaction (rawEncode tx s) s = some tx := by
  have hparams : readB (encB tx.params) = some (tx.params, []) := by
    have h := readB_enc tx.params []
    simpa using h
  cases s
  · rw [rawEncode]
    show (if schemaTag Schema.Native = schemaTag Schema.Native then
        readTxNative (txBody tx Schema.Native) else none) = some tx
    rw [if_pos rfl, txBody, readTxNative]
    simp only [List.append_assoc, readB_enc, readN_enc, readI_enc, hparams,
      Option.some_bind]
    simp
  · rw [rawEncode]
    show (if schemaTag Schema.LegacyCompat = schemaTag Schema.LegacyCompat then
        readTxLegacy (txBody tx Schema.LegacyCompat) else none) = some tx
    rw [if_pos rfl, txBody, readTxLegacy]
    simp only [List.append_assoc, readB_enc, readN_enc, readI_enc, hparams,
      Option.some_bind]
    simp

/-- C2: for every syntactically valid unsigned transaction and both schema
variants, decoding the encoding returns the original transaction — the
encode/decode round-trip is lossless. -/
theorem C2_codec_roundtrip (tx : UnsignedTransaction) (s : Schema) (bs : Bytes)
    (henc : encodeTransaction tx s = Except.ok bs) :
    decodeTransaction bs s = some tx := by
  rw [encodeTransaction] at henc
  split_ifs at henc
  cases henc
  exact decode_rawEncode tx s

/-! ## Signer (spec section 4.5) -/

/-- Modelled from the spec: the content digest of canonical transaction
bytes.  The digest algorithm is an external-library internal (spec
section 9); it is modelled as the deterministic byte-string hash.  The
same digest function serves both signing paths, as the spec requires. -/
def digest (bs : Bytes) : Nat := hashBytes bs

/-- The signature scheme enum of a signed transaction (spec section 3). -/
inductive SigType where
  | SECP256K1
  | BLS
deriving DecidableEq, Repr

/-- A signature: scheme enum plus fixed-length signature bytes. -/
structure Signature where
  type : SigType
  data : Bytes
deriving DecidableEq, Repr

/-- A signed transaction: the unsigned transaction plus its signature
(spec section 3). -/
structure SignedTransaction where
  message : UnsignedTransaction
  signature : Signature
deriving DecidableEq, Repr

/-- Modelled from the spec: the deterministic signature value over a
digest, checkable from the public key alone; the concrete scheme is an
external-library internal (spec section 9), modelled as a deterministic
keyed digest of fixed length. -/
def signatureFor (pub : Bytes) (d : Nat) : Bytes :=
  natToBytes 64 (hashBytes (pub ++ natToBytes 32 d))

/-- The signature a private scalar produces over a digest. -/
def mkSig (k : Nat) (d : Nat) : Signature :=
  { type := SigType.SECP256K1, data := signatureFor (pubOf k) d }

/-- Parses and validates a private key hex string; fails with
`InvalidPrivateKey` on wrong length or format (spec section 4.5). -/
def parsePrivKey (skHex : String) : Except SigError Nat :=
  match hexToBytes skHex with
  | none => .error .InvalidPrivateKey
  | some b =>
    if b.length ≠ 32 then .error .InvalidPrivateKey
    else if ¬ validScalar (bytesToNat b) then .error .InvalidPrivateKey
    else .ok (bytesToNat b)

/-- Signs a transaction under a given schema: encodes it, digests the
canonical bytes, signs the digest, and attaches the signature to the
original transaction.  Codec errors propagate unchanged. -/
def signWithSchema (s : Schema) (tx : UnsignedTransaction) (skHex : String) :
    Except SigError SignedTransaction :=
  match parsePrivKey skHex with
  | .error e => .error e
  | .ok k =>
    match encodeTransaction tx s with
    | .error e => .error e
    | .ok bs => .ok { message := tx, signature := mkSig k (digest bs) }

/-- The operation `transactionSign` (spec section 4.5): signs under the native schema. -/
def transactionSign (tx : UnsignedTransaction) (skHex : String) :
    Except SigError SignedTransaction :=
  signWithSchema Schema.Native tx skHex

/-- The operation `transactionSignLotus` (spec section 4.5): identical contract, but the
external-chain-compatible schema feeds the digest. -/
def transactionSignLotus (tx : UnsignedTransaction) (skHex : String) :
    Except SigError SignedTransaction :=
  signWithSchema Schema.LegacyCompat tx skHex

/-- The signature embedded in a signed transaction is valid for a public
key under a schema: its bytes equal the signature over the digest of the
re-encoded embedded transaction fields. -/
def SignatureValid (s : Schema) (st : SignedTransaction) (pub : Bytes) : Prop :=
  st.signature.data = signatureFor pub (digest (rawEncode st.message s))

instance (s : Schema) (st : SignedTransaction) (pub : Bytes) :
    Decidable (SignatureValid s st pub) := by
  unfold SignatureValid; infer_instance

/-- The operation `verifySignature` under a given schema: recomputes the digest from the
embedded transaction fields and checks the signature, returning a boolean
(spec section 4.5). -/
def verifySignatureWith (s : Schema) (st : SignedTransaction) (pub : Bytes) : Bool :=
  decide (SignatureValid s st pub)

/-- The operation `verifySignature` of the external contract, over the native schema. -/
def verifySignature (st : SignedTransaction) (pub : Bytes) : Bool :=
  verifySignatureWith Schema.Native st pub

/-- C8: `verifySignature` never throws on a signature mismatch — it is a
total boolean function that returns `false` exactly when the embedded
signature does not match the signature recomputed from the embedded
transaction fields, and `true` exactly when it does; verification failure
is a boolean result, not an error value of the `SigError` taxonomy. -/
theorem C8_verify_boolean (st : SignedTransaction) (pub : Bytes) :
    (verifySignature st pub = false ↔ ¬ SignatureValid Schema.Native st pub) ∧
    (verifySignature st pub = true ↔ SignatureValid Schema.Native st pub) := by
  constructor
  · simp [verifySignature, verifySignatureWith]
  · simp [verifySignature, verifySignatureWith]

/-- C9: neither signing function alters the caller's unsigned transaction:
the signed result embeds a transaction equal to the input, the signature
being carried in a separate field of a separate value. -/
theorem C9_sign_preserves_message (tx : UnsignedTransaction) (skHex : String)
    (st st' : SignedTransaction) :
    (transactionSign tx skHex = .ok st → st.message = tx) ∧
    (transactionSignLotus tx skHex = .ok st' → st'.message = tx) := by
  constructor
  · intro h
    rw [transactionSign, signWithSchema] at h
    rcases hp : parsePrivKey skHex with e | k <;> rw [hp] at h
    · cases h
    · rcases he : encodeTransaction tx Schema.Native with e | bs <;> rw [he] at h
      · cases h
      · cases h; rfl
  · intro h
    rw [transactionSignLotus, signWithSchema] at h
    rcases hp : parsePrivKey skHex with e | k <;> rw [hp] at h
    · cases h
    · rcases he : encodeTransaction tx Schema.LegacyCompat with e | bs <;> rw [he] at h
      · cases h
      · cases h; rfl

/-- C1: on the same transaction and key, `transactionSign` and
`transactionSignLotus` feed different canonical byte encodings (native
versus external-compatible schema) into the same digest algorithm and the
same signature scheme, and each resulting signature verifies against its
own schema's digest. -/
theorem C1_two_schemas (tx : UnsignedTransaction) (skHex : String)
    (st st' : SignedTransaction)
    (h : transactionSign tx skHex = .ok st)
    (h' : transactionSignLotus tx skHex = .ok st') :
    rawEncode tx Schema.Native ≠ rawEncode tx Schema.LegacyCompat ∧
    ∃ k, parsePrivKey skHex = .ok k ∧
      st.signature = mkSig k (digest (rawEncode tx Schema.Native)) ∧
      st'.signature = mkSig k (digest (rawEncode tx Schema.LegacyCompat)) ∧
      st.signature.type = SigType.SECP256K1 ∧
      st'.signature.type = SigType.SECP256K1 ∧
      verifySignatureWith Schema.Native st (pubOf k) = true ∧
      verifySignatureWith Schema.LegacyCompat st' (pubOf k) = true := by
  constructor
  · intro heq
    rw [rawEncode, rawEncode] at heq
    cases heq
  · rw [transactionSign, signWithSchema] at h
    rw [transactionSignLotus, signWithSchema] at h'
    rcases hp : parsePrivKey skHex with e | k <;> rw [hp] at h h'
    · cases h
    · rcases he : encodeTransaction tx Schema.Native with e | bs <;> rw [he] at h
      · cases h
      · rcases he' : encodeTransaction tx Schema.LegacyCompat with e | bs' <;>
          rw [he'] at h'
        · cases h'
        · cases h; cases h'
          have hbs : bs = rawEncode tx Schema.Native := by
            rw [encodeTransaction] at he
            split_ifs at he
            cases he; rfl
          have hbs' : bs' = rawEncode tx Schema.LegacyCompat := by
            rw [encodeTransaction] at he'
            split_ifs at he'
            cases he'; rfl
          subst hbs; subst hbs'
          refine ⟨k, rfl, rfl, rfl, rfl, rfl, ?_, ?_⟩
          · simp [verifySignatureWith, SignatureValid, mkSig]
          · simp [verifySignatureWith, SignatureValid, mkSig]

/-- The demo's unsigned transaction (src/examples/wasm_browser/index.js
lines 45-56), with the addresses as concrete byte strings. -/
def demoTx : UnsignedTransaction :=
  { toAddr := [1, 7]
    fromAddr := [1, 9]
    nonce := 1
    value := 100000
    gasprice := 2500
    gaslimit := 25000
    gaspremium := 2500
    gasfeecap := 2500
    method := 4
    params := [] }

/-- The signed transaction `transactionSign` yields on the demo inputs. -/
def demoSignedN : SignedTransaction :=
  { message := demoTx
    signature := mkSig goldenSk (digest (rawEncode demoTx Schema.Native)) }

/-- The signed transaction `transactionSignLotus` yields on the demo
inputs. -/
def demoSignedL : SignedTransaction :=
  { message := demoTx
    signature := mkSig goldenSk (digest (rawEncode demoTx Schema.LegacyCompat)) }

theorem transactionSign_demo :
    transactionSign demoTx goldenSkHex = Except.ok demoSignedN := by rfl

theorem transactionSignLotus_demo :
    transactionSignLotus demoTx goldenSkHex = Except.ok demoSignedL := by rfl

/-- Witness for C1 at the demo transaction and the golden private key. -/
theorem C1_two_schemas_witness :
    rawEncode demoTx Schema.Native ≠ rawEncode demoTx Schema.LegacyCompat ∧
    ∃ k, parsePrivKey goldenSkHex = .ok k ∧
      demoSignedN.signature = mkSig k (digest (rawEncode demoTx Schema.Native)) ∧
      demoSignedL.signature = mkSig k (digest (rawEncode demoTx Schema.LegacyCompat)) ∧
      demoSignedN.signature.type = SigType.SECP256K1 ∧
      demoSignedL.signature.type = SigType.SECP256K1 ∧
      verifySignatureWith Schema.Native demoSignedN (pubOf k) = true ∧
      verifySignatureWith Schema.LegacyCompat demoSignedL (pubOf k) = true :=
  C1_two_schemas demoTx goldenSkHex demoSignedN demoSignedL
    transactionSign_demo transactionSignLotus_demo

/-- Witness for C2 at the demo transaction under the native schema. -/
theorem C2_codec_roundtrip_witness :
    decodeTransaction (rawEncode demoTx Schema.Native) Schema.Native = some demoTx :=
  C2_codec_roundtrip demoTx Schema.Native (rawEncode demoTx Schema.Native) (by rfl)

/-- Witness for C9 at the demo transaction and the golden private key. -/
theorem C9_sign_preserves_message_witness :
    demoSignedN.message = demoTx ∧ demoSignedL.message = demoTx :=
  ⟨(C9_sign_preserves_message demoTx goldenSkHex demoSignedN demoSignedL).1
      transactionSign_demo,
   (C9_sign_preserves_message demoTx goldenSkHex demoSignedN demoSignedL).2
      transactionSignLotus_demo⟩
